import Mathlib

/-!
Verification of the itmo_ledger bonus-entry ledger.

The Go repository persists "bonus entries" (time-limited point credits) in a
single SQL table and exposes deposit, FIFO withdrawal (with entry splitting),
balance aggregation, an expiring-amounts breakdown, a multiply-on-balance
operation and an expiration sweeper.  This file is a shallow embedding of that
code: the table is a `List BonusEntry` kept in insertion order, SQL
`ORDER BY created_at` is a stable insertion sort, timestamps are integers
(seconds), a calendar day is 86400 seconds, Go `int` arithmetic that the code
deliberately performs in a 64-bit accumulator is modelled with an explicit
wrap-around at 2^64, and Go's truncating integer division is `Int.tdiv`.
-/

namespace ItmoLedger

/-- Status enum of a bonus entry, mirroring `BonusEntryStatus` in the Go model
(`active`, `expired`, `spent`). -/
inductive BonusEntryStatus where
  | active
  | expired
  | spent
deriving DecidableEq, Repr

/-- A persisted bonus entry, mirroring the Go struct `BonusEntry` and the
`bonus_entries` table.  Ids and user ids are opaque; timestamps are integer
instants. -/
structure BonusEntry where
  id : Nat
  userId : Nat
  amount : Int
  createdAt : Int
  lifetimeDays : Int
  status : BonusEntryStatus
  spentAt : Option Int
deriving DecidableEq, Repr

/-- Length of one calendar day in the integer time scale (seconds). -/
def secondsPerDay : Int := 86400

/-- `BonusEntry.ExpiresAt` in Go: `CreatedAt.AddDate(0, 0, LifetimeDays)`,
modelled as adding `lifetimeDays` fixed-length days. -/
def BonusEntry.expiresAt (e : BonusEntry) : Int :=
  e.createdAt + e.lifetimeDays * secondsPerDay

/-- The `bonus_entries` table, as a list in insertion order. -/
abbrev Store := List BonusEntry

/-- The SQL `WHERE` clause shared by the read queries:
`user_id = $1 AND status = 'active' AND expires_at > NOW()`. -/
def isActiveUnexpired (userId : Nat) (now : Int) (e : BonusEntry) : Bool :=
  decide (e.userId = userId ∧ e.status = BonusEntryStatus.active ∧ now < e.expiresAt)

/-- Order used by `ORDER BY created_at ASC`. -/
def createdLE (a b : BonusEntry) : Prop :=
  a.createdAt ≤ b.createdAt

instance : DecidableRel createdLE :=
  fun a b => inferInstanceAs (Decidable (a.createdAt ≤ b.createdAt))

instance : IsTotal BonusEntry createdLE :=
  ⟨fun a b => Int.le_total a.createdAt b.createdAt⟩

instance : IsTrans BonusEntry createdLE :=
  ⟨fun _ _ _ h1 h2 => le_trans h1 h2⟩

/-- `BonusEntryModel.GetActiveEntries`: active, unexpired entries of the user,
ordered ascending by `created_at` (stable sort: ties keep insertion order). -/
def getActiveEntries (s : Store) (userId : Nat) (now : Int) : List BonusEntry :=
  List.insertionSort createdLE (s.filter (isActiveUnexpired userId now))

/-- `BonusEntryModel.GetActiveEntriesForUpdate`: same filter and ordering as
`getActiveEntries`; the `FOR UPDATE` row locks have no effect in this
sequential model. -/
def getActiveEntriesForUpdate (s : Store) (userId : Nat) (now : Int) : List BonusEntry :=
  getActiveEntries s userId now

/-- Errors surfaced by the ledger operations: `data.ErrInsufficientFunds` and
the three multiply errors declared in `cmd/api/transactions.go`. -/
inductive LedgerError where
  | insufficientFunds
  | noBalanceToMultiply
  | zeroBonusAfterMultiply
  | multiplyPercentTooLarge
deriving DecidableEq, Repr

/-- The in-place mutation the spend loop applies to a consumed entry:
`entry.Status = spent; entry.SpentAt = &now; entry.Amount = spentAmount`. -/
def markSpent (now spentAmount : Int) (e : BonusEntry) : BonusEntry :=
  { e with status := BonusEntryStatus.spent, spentAt := some now, amount := spentAmount }

/-- The SQL `UPDATE bonus_entries SET status='spent', spent_at=$1, amount=$2
WHERE id = $3` issued by the spend loop. -/
def updateSpentById (s : Store) (entryId : Nat) (now spentAmount : Int) : Store :=
  s.map fun e => if e.id = entryId then markSpent now spentAmount e else e

/-- The new entry inserted on partial consumption: same user, `created_at` and
`lifetime_days` as the original, amount = unconsumed remainder, status active. -/
def remainderEntry (newId : Nat) (e : BonusEntry) (spentAmount : Int) : BonusEntry :=
  { id := newId
    userId := e.userId
    amount := e.amount - spentAmount
    createdAt := e.createdAt
    lifetimeDays := e.lifetimeDays
    status := BonusEntryStatus.active
    spentAt := none }

/-- The `for _, entry := range entries` loop of `SpendEntries`.  Walks the
locked entries, threading `remainingAmount` and the table state; returns the
receipts (the mutated consumed entries, in consumption order) and the final
table.  `newId` is the id the store assigns to the split row, if one is
inserted. -/
def spendLoop (now : Int) (newId : Nat) :
    List BonusEntry → Int → Store → List BonusEntry × Store
  | [], _, s => ([], s)
  | e :: rest, remaining, s =>
    if remaining ≤ 0 then ([], s)
    else if remaining < e.amount then
      let spentAmount := remaining
      let s1 := s ++ [remainderEntry newId e spentAmount]
      let s2 := updateSpentById s1 e.id now spentAmount
      let res := spendLoop now newId rest (remaining - spentAmount) s2
      (markSpent now spentAmount e :: res.1, res.2)
    else
      let spentAmount := e.amount
      let s2 := updateSpentById s e.id now spentAmount
      let res := spendLoop now newId rest (remaining - spentAmount) s2
      (markSpent now spentAmount e :: res.1, res.2)

/-- `BonusEntryModel.SpendEntries`: lock and fetch the user's active entries
oldest-first, fail with `insufficientFunds` when their sum is below `amount`
(leaving the table untouched), otherwise run the FIFO spend loop.  The second
component is the table state after the call (unchanged on the error path,
matching the transaction rollback). -/
def SpendEntries (s : Store) (userId : Nat) (amount : Int) (now : Int) (newId : Nat) :
    Except LedgerError (List BonusEntry) × Store :=
  let entries := getActiveEntriesForUpdate s userId now
  let availableBalance := (entries.map (·.amount)).sum
  if availableBalance < amount then
    (Except.error LedgerError.insufficientFunds, s)
  else
    let res := spendLoop now newId entries amount s
    (Except.ok res.1, res.2)

/-- `BonusEntryModel.GetTotalBalance`: `SELECT COALESCE(SUM(amount), 0)` over
the user's active, unexpired entries. -/
def GetTotalBalance (s : Store) (userId : Nat) (now : Int) : Int :=
  ((s.filter (isActiveUnexpired userId now)).map (·.amount)).sum

/-- `DATE(expires_at)`: the calendar-day bucket of an instant (floor division,
since `/` on `Int` is Euclidean and the divisor is positive). -/
def dateOf (t : Int) : Int := t / secondsPerDay

/-- Row filter of `GetExpiringEntries`: active, unexpired, and
`expires_at <= NOW() + INTERVAL '1 day' * days`. -/
def withinHorizon (userId : Nat) (now days : Int) (e : BonusEntry) : Bool :=
  isActiveUnexpired userId now e && decide (e.expiresAt ≤ now + days * secondsPerDay)

/-- The rows of the `GetExpiringEntries` query before grouping. -/
def expiringRows (s : Store) (userId : Nat) (days now : Int) : List BonusEntry :=
  s.filter (withinHorizon userId now days)

/-- `BonusEntryModel.GetExpiringEntries`: group the in-horizon rows by
`DATE(expires_at)`, sum amounts per date, `ORDER BY expire_date ASC`.  The
result is the association list of `(date, total_amount)` rows in the order the
query returns them. -/
def GetExpiringEntries (s : Store) (userId : Nat) (days : Int) (now : Int) :
    List (Int × Int) :=
  let rows := expiringRows s userId days now
  let dates := (rows.map fun e => dateOf e.expiresAt).dedup
  (List.insertionSort (· ≤ ·) dates).map fun d =>
    (d, ((rows.filter fun e => decide (dateOf e.expiresAt = d)).map (·.amount)).sum)

/-- Predicate of the sweep's `WHERE` clause:
`status = 'active' AND expires_at <= NOW()`. -/
def isOverdueActive (now : Int) (e : BonusEntry) : Bool :=
  decide (e.status = BonusEntryStatus.active ∧ e.expiresAt ≤ now)

/-- `BonusEntryModel.UpdateExpiredEntries`: one set-based
`UPDATE ... SET status='expired'` over the overdue active rows; returns the
number of rows affected and the new table. -/
def UpdateExpiredEntries (s : Store) (now : Int) : Nat × Store :=
  ((s.filter (isOverdueActive now)).length,
   s.map fun e =>
     if isOverdueActive now e then { e with status := BonusEntryStatus.expired } else e)

/-- `application.handleDeposit`: insert a fresh active entry with the given
amount and lifetime, `created_at = now`. -/
def handleDeposit (s : Store) (userId : Nat) (amount lifetimeDays now : Int)
    (newId : Nat) : Store :=
  s ++ [{ id := newId
          userId := userId
          amount := amount
          createdAt := now
          lifetimeDays := lifetimeDays
          status := BonusEntryStatus.active
          spentAt := none }]

/-- Wrap-around of Go 64-bit `int` arithmetic: reduce into `[-2^63, 2^63)`. -/
def wrapInt64 (x : Int) : Int :=
  (x + 2 ^ 63) % 2 ^ 64 - 2 ^ 63

/-- `application.handleMultiply`: percent range checks before any storage
access, locked balance read, `bonus := int((int64(total) * int64(percent)) /
100)` (64-bit product, Go truncating division), zero-bonus check, then a
deposit of `bonus` in the same transaction.  The second component is the table
after the call (unchanged on every error path). -/
def handleMultiply (s : Store) (userId : Nat) (percent lifetimeDays now : Int)
    (newId : Nat) : Except LedgerError Int × Store :=
  if percent ≤ 0 then
    (Except.error LedgerError.zeroBonusAfterMultiply, s)
  else if 200 < percent then
    (Except.error LedgerError.multiplyPercentTooLarge, s)
  else
    let entries := getActiveEntriesForUpdate s userId now
    let total := (entries.map (·.amount)).sum
    if total ≤ 0 then
      (Except.error LedgerError.noBalanceToMultiply, s)
    else
      let bonus := (wrapInt64 (total * percent)).tdiv 100
      if bonus ≤ 0 then
        (Except.error LedgerError.zeroBonusAfterMultiply, s)
      else
        (Except.ok bonus, handleDeposit s userId bonus lifetimeDays now newId)

/-- Request body of `POST /v1/transactions` (`transactionIn`), with the user id
already parsed. -/
structure TransactionIn where
  userId : Nat
  amount : Int
  type : String
  lifetimeDays : Option Int
deriving DecidableEq, Repr

/-- `validator.IsPermitted`: membership of the value in the permitted list. -/
def isPermitted (value : String) (permitted : List String) : Bool :=
  permitted.contains value

/-- The validator checks of `createTransactionHandler` (multiply-capable
version): positive amount, permitted type
(`deposit`, `withdrawal`, `multiply_percent`), and positive `lifetime_days`
when supplied.  (The uuid parse check is outside the model: `userId` is
already a parsed id.) -/
def validateTransaction (trx : TransactionIn) : Bool :=
  decide (0 < trx.amount) &&
  isPermitted trx.type ["deposit", "withdrawal", "multiply_percent"] &&
  (match trx.lifetimeDays with
   | some d => decide (0 < d)
   | none => true)

/-- Which case of the handler's `switch trxIn.Type` runs. -/
inductive DispatchCase where
  | depositCase
  | withdrawalCase
  | multiplyCase
  | noCase
deriving DecidableEq, Repr

/-- The `switch trxIn.Type` of `createTransactionHandler`: cases `"deposit"`,
`"withdrawal"`, `"multiply"`, and no default. -/
def dispatchCase (t : String) : DispatchCase :=
  if t = "deposit" then DispatchCase.depositCase
  else if t = "withdrawal" then DispatchCase.withdrawalCase
  else if t = "multiply" then DispatchCase.multiplyCase
  else DispatchCase.noCase

/-- The JSON success payload of `createTransactionHandler`. -/
structure TransactionResponse where
  userId : Nat
  amount : Int
  type : String
  balance : Int
deriving DecidableEq, Repr

/-- Outcome of one `POST /v1/transactions` request. -/
inductive TransactionOutcome where
  | validationFailed
  | badRequest (e : LedgerError)
  | success (resp : TransactionResponse)
deriving DecidableEq, Repr

/-- `application.createTransactionHandler` (multiply-capable version):
validate, default `lifetime_days` to 30, dispatch on the type string inside a
transaction, roll back on a business error, commit and report the updated
balance otherwise.  `processedAmount` starts at 0 and the response echoes the
request amount unless a positive processed amount replaced it. -/
def createTransaction (s : Store) (trx : TransactionIn) (now : Int) (newId : Nat) :
    TransactionOutcome × Store :=
  if validateTransaction trx then
    let lifetimeDays := (trx.lifetimeDays).getD 30
    let step : Int × Except LedgerError Store :=
      match dispatchCase trx.type with
      | DispatchCase.depositCase =>
        (trx.amount, Except.ok (handleDeposit s trx.userId trx.amount lifetimeDays now newId))
      | DispatchCase.withdrawalCase =>
        let r := SpendEntries s trx.userId trx.amount now newId
        (trx.amount, r.1.map fun _ => r.2)
      | DispatchCase.multiplyCase =>
        let r := handleMultiply s trx.userId trx.amount lifetimeDays now newId
        (match r.1 with
         | Except.ok bonus => (bonus, Except.ok r.2)
         | Except.error e => (0, Except.error e))
      | DispatchCase.noCase => (0, Except.ok s)
    match step.2 with
    | Except.error e => (TransactionOutcome.badRequest e, s)
    | Except.ok s' =>
      let balance := GetTotalBalance s' trx.userId now
      let amountForResponse := if 0 < step.1 then step.1 else trx.amount
      (TransactionOutcome.success
        { userId := trx.userId, amount := amountForResponse,
          type := trx.type, balance := balance }, s')
  else
    (TransactionOutcome.validationFailed, s)

/-- One ledger operation with its per-request context (caller, wall-clock
instant, store-assigned fresh id). -/
inductive LedgerOp where
  | deposit (userId : Nat) (amount lifetimeDays now : Int) (newId : Nat)
  | withdraw (userId : Nat) (amount now : Int) (newId : Nat)
  | multiply (userId : Nat) (percent lifetimeDays now : Int) (newId : Nat)
  | sweep (now : Int)

/-- Effect of one operation on the table. -/
def applyOp (s : Store) : LedgerOp → Store
  | LedgerOp.deposit userId amount lifetimeDays now newId =>
    handleDeposit s userId amount lifetimeDays now newId
  | LedgerOp.withdraw userId amount now newId =>
    (SpendEntries s userId amount now newId).2
  | LedgerOp.multiply userId percent lifetimeDays now newId =>
    (handleMultiply s userId percent lifetimeDays now newId).2
  | LedgerOp.sweep now =>
    (UpdateExpiredEntries s now).2

/-- A sequence of operations, applied left to right. -/
def runOps (s : Store) (ops : List LedgerOp) : Store :=
  ops.foldl applyOp s

/-- The input validation the handler performs before invoking an operation:
deposit amounts are positive (`v.Check(trxIn.Amount > 0, ...)`); the other
operations need no input constraint for the positivity invariant. -/
def ValidOp : LedgerOp → Prop
  | LedgerOp.deposit _ amount _ _ _ => 0 < amount
  | _ => True

/-- Every persisted entry has a strictly positive amount. -/
def AllPositive (s : Store) : Prop :=
  ∀ e ∈ s, 0 < e.amount

/-! ### Lemmas about the spend loop -/

theorem spendLoop_nonpos (now : Int) (newId : Nat) (entries : List BonusEntry)
    (r : Int) (s : Store) (h : r ≤ 0) :
    spendLoop now newId entries r s = ([], s) := by
  cases entries with
  | nil => rfl
  | cons e rest => simp [spendLoop, h]

theorem spendLoop_sum (now : Int) (newId : Nat) (entries : List BonusEntry) :
    ∀ (r : Int) (s : Store), 0 ≤ r → r ≤ (entries.map (·.amount)).sum →
      (((spendLoop now newId entries r s).1).map (·.amount)).sum = r := by
  induction entries with
  | nil =>
    intro r s h0 h1
    simp only [List.map_nil, List.sum_nil] at h1
    simp [spendLoop]
    omega
  | cons e rest ih =>
    intro r s h0 h1
    simp only [List.map_cons, List.sum_cons] at h1
    by_cases hr : r ≤ 0
    · simp [spendLoop, hr]
      omega
    · by_cases hlt : r < e.amount
      · simp only [spendLoop, if_neg hr, if_pos hlt]
        rw [sub_self, spendLoop_nonpos now newId rest 0 _ le_rfl]
        simp [markSpent]
      · simp only [spendLoop, if_neg hr, if_neg hlt]
        have hrec := ih (r - e.amount) (updateSpentById s e.id now e.amount)
          (by omega) (by omega)
        simp only [List.map_cons, List.sum_cons, hrec, markSpent]
        omega

theorem spendLoop_createdAt_prefix (now : Int) (newId : Nat)
    (entries : List BonusEntry) :
    ∀ (r : Int) (s : Store),
      ((spendLoop now newId entries r s).1.map (·.createdAt)) <+:
        (entries.map (·.createdAt)) := by
  induction entries with
  | nil => intro r s; simp [spendLoop]
  | cons e rest ih =>
    intro r s
    by_cases hr : r ≤ 0
    · simp [spendLoop, hr]
    · by_cases hlt : r < e.amount
      · simp only [spendLoop, if_neg hr, if_pos hlt]
        rw [sub_self, spendLoop_nonpos now newId rest 0 _ le_rfl]
        simp only [List.map_cons, markSpent]
        exact (List.prefix_cons_inj _).mpr List.nil_prefix
      · simp only [spendLoop, if_neg hr, if_neg hlt]
        simp only [List.map_cons, markSpent]
        exact (List.prefix_cons_inj _).mpr (ih _ _)

theorem getActiveEntries_sorted (s : Store) (userId : Nat) (now : Int) :
    List.Sorted createdLE (getActiveEntries s userId now) :=
  List.sorted_insertionSort createdLE _

theorem getActiveEntries_perm (s : Store) (userId : Nat) (now : Int) :
    (getActiveEntries s userId now).Perm (s.filter (isActiveUnexpired userId now)) :=
  List.perm_insertionSort createdLE _

theorem getActiveEntries_sum (s : Store) (userId : Nat) (now : Int) :
    ((getActiveEntries s userId now).map (·.amount)).sum =
      ((s.filter (isActiveUnexpired userId now)).map (·.amount)).sum :=
  ((getActiveEntries_perm s userId now).map (·.amount)).sum_eq

/-- C1: for every successful `SpendEntries(user, amount)` call with a positive
amount, the receipts' amounts sum to exactly the requested amount, and the
receipts are in consumption order: their `created_at` values are ascending. -/
theorem spendEntries_receipts_sum_and_order
    (s : Store) (userId : Nat) (amount now : Int) (newId : Nat)
    (receipts : List BonusEntry) (s' : Store)
    (hamount : 0 < amount)
    (hok : SpendEntries s userId amount now newId = (Except.ok receipts, s')) :
    (receipts.map (·.amount)).sum = amount ∧
      (receipts.map (·.createdAt)).Sorted (· ≤ ·) := by
  unfold SpendEntries at hok
  by_cases h : ((getActiveEntriesForUpdate s userId now).map (·.amount)).sum < amount
  · simp only [if_pos h, Prod.mk.injEq] at hok
    exact absurd hok.1 (by simp)
  · simp only [if_neg h, Prod.mk.injEq, Except.ok.injEq] at hok
    obtain ⟨h1, _⟩ := hok
    subst h1
    refine ⟨spendLoop_sum now newId _ amount s (le_of_lt hamount) (not_lt.mp h), ?_⟩
    have hpre := spendLoop_createdAt_prefix now newId
      (getActiveEntriesForUpdate s userId now) amount s
    have hsorted : ((getActiveEntriesForUpdate s userId now).map (·.createdAt)).Sorted (· ≤ ·) := by
      have := getActiveEntries_sorted s userId now
      exact List.pairwise_map.mpr this
    exact List.Pairwise.sublist hpre.sublist hsorted

/-- C1 witness: spending 120 from entries of 100 and 50 consumes 100 then 20,
in ascending `created_at` order. -/
theorem spendEntries_receipts_sum_and_order_witness :
    ((([⟨1, 7, 100, 1000, 60, BonusEntryStatus.spent, some 5000⟩,
        ⟨2, 7, 20, 2000, 60, BonusEntryStatus.spent, some 5000⟩] :
          List BonusEntry).map (·.amount)).sum = 120 ∧
      (([⟨1, 7, 100, 1000, 60, BonusEntryStatus.spent, some 5000⟩,
         ⟨2, 7, 20, 2000, 60, BonusEntryStatus.spent, some 5000⟩] :
           List BonusEntry).map (·.createdAt)).Sorted (· ≤ ·)) :=
  spendEntries_receipts_sum_and_order
    [⟨1, 7, 100, 1000, 60, BonusEntryStatus.active, none⟩,
     ⟨2, 7, 50, 2000, 60, BonusEntryStatus.active, none⟩]
    7 120 5000 99 _ _ (by decide) rfl

/-- C2: `SpendEntries` fails with `insufficientFunds` exactly when the sum of
the user's active, unexpired entries is below the requested amount, and on
that failure the table is unchanged. -/
theorem spendEntries_insufficient_iff
    (s : Store) (userId : Nat) (amount now : Int) (newId : Nat) :
    ((SpendEntries s userId amount now newId).1 =
        Except.error LedgerError.insufficientFunds ↔
      ((s.filter (isActiveUnexpired userId now)).map (·.amount)).sum < amount) ∧
    (((s.filter (isActiveUnexpired userId now)).map (·.amount)).sum < amount →
      (SpendEntries s userId amount now newId).2 = s) := by
  have hsum := getActiveEntries_sum s userId now
  unfold SpendEntries getActiveEntriesForUpdate
  by_cases h : ((getActiveEntries s userId now).map (·.amount)).sum < amount
  · simp [h, hsum ▸ h]
  · rw [hsum] at h
    simp [hsum.symm ▸ h, h]

/-- C2 witness: with a single active entry of 50, withdrawing 100 fails with
`insufficientFunds` and leaves the table unchanged. -/
theorem spendEntries_insufficient_iff_witness :
    (SpendEntries [⟨1, 7, 50, 1000, 60, BonusEntryStatus.active, none⟩] 7 100 2000 99).1 =
        Except.error LedgerError.insufficientFunds ∧
      (SpendEntries [⟨1, 7, 50, 1000, 60, BonusEntryStatus.active, none⟩] 7 100 2000 99).2 =
        [⟨1, 7, 50, 1000, 60, BonusEntryStatus.active, none⟩] :=
  ⟨(spendEntries_insufficient_iff
      [⟨1, 7, 50, 1000, 60, BonusEntryStatus.active, none⟩] 7 100 2000 99).1.mpr
      (by decide),
   (spendEntries_insufficient_iff
      [⟨1, 7, 50, 1000, 60, BonusEntryStatus.active, none⟩] 7 100 2000 99).2
      (by decide)⟩

/-- C3: when the spend loop reaches an entry whose amount strictly exceeds the
remaining amount to spend, it inserts a new active entry for the same user
carrying the unconsumed remainder with the original `created_at` and
`lifetime_days` (hence the same `expires_at`), overwrites the original entry to
`spent` with `spent_at = now` and `amount = remaining`, emits that overwritten
entry as the sole remaining receipt, and stops: the final state does not depend
on the entries after the stopping point, and every stored row other than the
consumed one is carried over unchanged. -/
theorem spendLoop_partial_split
    (s : Store) (now : Int) (newId : Nat) (e : BonusEntry)
    (rest : List BonusEntry) (r : Int)
    (h0 : 0 < r) (h1 : r < e.amount) :
    spendLoop now newId (e :: rest) r s =
      ([markSpent now r e],
        updateSpentById (s ++ [remainderEntry newId e r]) e.id now r) ∧
    (remainderEntry newId e r).userId = e.userId ∧
    (remainderEntry newId e r).amount = e.amount - r ∧
    (remainderEntry newId e r).createdAt = e.createdAt ∧
    (remainderEntry newId e r).lifetimeDays = e.lifetimeDays ∧
    (remainderEntry newId e r).expiresAt = e.expiresAt ∧
    (remainderEntry newId e r).status = BonusEntryStatus.active ∧
    (markSpent now r e).status = BonusEntryStatus.spent ∧
    (markSpent now r e).spentAt = some now ∧
    (markSpent now r e).amount = r ∧
    (∀ x ∈ s, x.id ≠ e.id →
      x ∈ updateSpentById (s ++ [remainderEntry newId e r]) e.id now r) := by
  refine ⟨?_, rfl, rfl, rfl, rfl, rfl, rfl, rfl, rfl, rfl, ?_⟩
  · simp only [spendLoop, if_neg (not_le.mpr h0), if_pos h1]
    rw [sub_self, spendLoop_nonpos now newId rest 0 _ le_rfl]
  · intro x hx hid
    unfold updateSpentById
    exact List.mem_map.mpr ⟨x, List.mem_append_left _ hx, by simp [hid]⟩

/-- C3 witness: with remaining 20 against an entry of 50, the loop emits the
entry overwritten to spent/20 and appends the active 30-point remainder with
the original age. -/
theorem spendLoop_partial_split_witness :
    spendLoop 5000 99 [⟨2, 7, 50, 2000, 60, BonusEntryStatus.active, none⟩] 20
        [⟨2, 7, 50, 2000, 60, BonusEntryStatus.active, none⟩] =
      ([markSpent 5000 20 ⟨2, 7, 50, 2000, 60, BonusEntryStatus.active, none⟩],
        updateSpentById
          ([⟨2, 7, 50, 2000, 60, BonusEntryStatus.active, none⟩] ++
            [remainderEntry 99 ⟨2, 7, 50, 2000, 60, BonusEntryStatus.active, none⟩ 20])
          2 5000 20) ∧
    (remainderEntry 99 ⟨2, 7, 50, 2000, 60, BonusEntryStatus.active, none⟩ 20).amount = 30 :=
  ⟨(spendLoop_partial_split
      [⟨2, 7, 50, 2000, 60, BonusEntryStatus.active, none⟩] 5000 99
      ⟨2, 7, 50, 2000, 60, BonusEntryStatus.active, none⟩ [] 20
      (by decide) (by decide)).1,
   by decide⟩

theorem wrapInt64_eq_self (x : Int) (h0 : -(2 ^ 63) ≤ x) (h1 : x < 2 ^ 63) :
    wrapInt64 x = x := by
  unfold wrapInt64
  omega

/-- C4: `handleMultiply` checks percent before any storage access (the result
on those branches does not depend on the table): `percent ≤ 0` fails
`zeroBonusAfterMultiply` and `percent > 200` fails `multiplyPercentTooLarge`;
with the locked total ≤ 0 it fails `noBalanceToMultiply`; otherwise (whenever
the 64-bit accumulator does not overflow) it computes the bonus as
`total * percent / 100` rounded down (`/` is Euclidean division, which is floor
division for the positive divisor 100), fails `zeroBonusAfterMultiply` when
that bonus is ≤ 0, and otherwise deposits exactly the bonus as a new active
entry and returns it as the credited amount. -/
theorem handleMultiply_spec
    (s : Store) (userId : Nat) (percent lifetimeDays now : Int) (newId : Nat) :
    (percent ≤ 0 → handleMultiply s userId percent lifetimeDays now newId =
      (Except.error LedgerError.zeroBonusAfterMultiply, s)) ∧
    (200 < percent → handleMultiply s userId percent lifetimeDays now newId =
      (Except.error LedgerError.multiplyPercentTooLarge, s)) ∧
    (0 < percent → percent ≤ 200 →
      ((getActiveEntriesForUpdate s userId now).map (·.amount)).sum ≤ 0 →
      handleMultiply s userId percent lifetimeDays now newId =
        (Except.error LedgerError.noBalanceToMultiply, s)) ∧
    (∀ total : Int,
      total = ((getActiveEntriesForUpdate s userId now).map (·.amount)).sum →
      0 < percent → percent ≤ 200 → 0 < total → total * percent < 2 ^ 63 →
      (total * percent / 100 ≤ 0 →
        handleMultiply s userId percent lifetimeDays now newId =
          (Except.error LedgerError.zeroBonusAfterMultiply, s)) ∧
      (0 < total * percent / 100 →
        handleMultiply s userId percent lifetimeDays now newId =
          (Except.ok (total * percent / 100),
            handleDeposit s userId (total * percent / 100) lifetimeDays now newId))) := by
  refine ⟨?_, ?_, ?_, ?_⟩
  · intro h
    simp [handleMultiply, h]
  · intro h
    rw [handleMultiply, if_neg (by omega), if_pos h]
  · intro h0 h200 htot
    rw [handleMultiply, if_neg (by omega), if_neg (by omega), if_pos htot]
  · intro total htotal h0 h200 htot hover
    subst htotal
    have hprod : 0 ≤ ((getActiveEntriesForUpdate s userId now).map (·.amount)).sum * percent :=
      le_of_lt (mul_pos htot h0)
    have hdiv : (wrapInt64 (((getActiveEntriesForUpdate s userId now).map (·.amount)).sum *
        percent)).tdiv 100 =
        ((getActiveEntriesForUpdate s userId now).map (·.amount)).sum * percent / 100 := by
      rw [wrapInt64_eq_self _ (by omega) hover]
      exact Int.tdiv_eq_ediv hprod (by omega)
    constructor
    · intro hb
      rw [handleMultiply, if_neg (by omega), if_neg (by omega), if_neg (by omega),
        if_pos (by rw [hdiv]; exact hb)]
    · intro hb
      rw [handleMultiply, if_neg (by omega), if_neg (by omega), if_neg (by omega),
        if_neg (by rw [hdiv]; omega), hdiv]

/-- C4 witness: multiplying a locked balance of 100 by 50 percent credits a
new 50-point active entry. -/
theorem handleMultiply_spec_witness :
    handleMultiply [⟨1, 7, 100, 1000, 60, BonusEntryStatus.active, none⟩]
        7 50 30 2000 99 =
      (Except.ok (100 * 50 / 100),
        handleDeposit [⟨1, 7, 100, 1000, 60, BonusEntryStatus.active, none⟩]
          7 (100 * 50 / 100) 30 2000 99) :=
  ((handleMultiply_spec [⟨1, 7, 100, 1000, 60, BonusEntryStatus.active, none⟩]
      7 50 30 2000 99).2.2.2 100 (by decide) (by decide) (by decide) (by decide)
      (by decide)).2 (by decide)

/-- C5: every transaction type accepted by the validator (`deposit`,
`withdrawal`, `multiply_percent`) fails to match the `"multiply"` case of the
dispatch switch, so the implemented multiply path is unreachable through
validated input. -/
theorem validated_type_never_dispatches_multiply (trx : TransactionIn)
    (h : validateTransaction trx = true) :
    dispatchCase trx.type ≠ DispatchCase.multiplyCase := by
  have hmem : trx.type = "deposit" ∨ trx.type = "withdrawal" ∨
      trx.type = "multiply_percent" := by
    unfold validateTransaction isPermitted at h
    simp only [Bool.and_eq_true] at h
    have hc := h.1.2
    rw [List.contains, List.elem_iff] at hc
    simp only [List.mem_cons, List.not_mem_nil, or_false] at hc
    tauto
  rcases hmem with h' | h' | h' <;> rw [h'] <;> decide

/-- C5 witness: the validated type `multiply_percent` does not select the
multiply dispatch case. -/
theorem validated_type_never_dispatches_multiply_witness :
    dispatchCase (TransactionIn.mk 7 50 "multiply_percent" (some 30)).type ≠
      DispatchCase.multiplyCase :=
  validated_type_never_dispatches_multiply ⟨7, 50, "multiply_percent", some 30⟩
    (by decide)

/-- C6: a validated request of type `multiply_percent` matches no dispatch
case: the handler mutates nothing, commits the empty transaction, and returns
a success response echoing the request amount with the user's unchanged
balance. -/
theorem multiplyPercent_request_is_noop
    (s : Store) (trx : TransactionIn) (now : Int) (newId : Nat)
    (htype : trx.type = "multiply_percent")
    (hval : validateTransaction trx = true) :
    createTransaction s trx now newId =
      (TransactionOutcome.success
        { userId := trx.userId, amount := trx.amount, type := trx.type,
          balance := GetTotalBalance s trx.userId now }, s) := by
  have hd : dispatchCase trx.type = DispatchCase.noCase := by
    rw [htype]; decide
  rw [createTransaction, if_pos hval, hd]
  simp

/-- C6 witness: a `multiply_percent` request over a 100-point table succeeds,
echoes amount 5, reports balance 100, and leaves the table unchanged. -/
theorem multiplyPercent_request_is_noop_witness :
    createTransaction [⟨1, 7, 100, 1000, 60, BonusEntryStatus.active, none⟩]
        ⟨7, 5, "multiply_percent", some 30⟩ 2000 99 =
      (TransactionOutcome.success
        { userId := 7, amount := 5, type := "multiply_percent",
          balance := GetTotalBalance
            [⟨1, 7, 100, 1000, 60, BonusEntryStatus.active, none⟩] 7 2000 },
        [⟨1, 7, 100, 1000, 60, BonusEntryStatus.active, none⟩]) :=
  multiplyPercent_request_is_noop
    [⟨1, 7, 100, 1000, 60, BonusEntryStatus.active, none⟩]
    ⟨7, 5, "multiply_percent", some 30⟩ 2000 99 rfl (by decide)

/-- The spec's independent description of usable balance: fold the raw table,
adding the amount of every entry with `status = active` and
`expires_at > now` owned by the user. -/
def specUsableBalance (s : Store) (userId : Nat) (now : Int) : Int :=
  s.foldr
    (fun e acc =>
      if e.status = BonusEntryStatus.active ∧ now < e.expiresAt ∧ e.userId = userId
      then e.amount + acc else acc)
    0

theorem getTotalBalance_eq_spec (s : Store) (userId : Nat) (now : Int) :
    GetTotalBalance s userId now = specUsableBalance s userId now := by
  induction s with
  | nil => rfl
  | cons e rest ih =>
    unfold GetTotalBalance specUsableBalance at ih ⊢
    rw [List.filter_cons, List.foldr_cons]
    by_cases h : e.status = BonusEntryStatus.active ∧ now < e.expiresAt ∧ e.userId = userId
    · have hb : isActiveUnexpired userId now e = true := by
        unfold isActiveUnexpired
        exact decide_eq_true (by tauto)
      rw [hb, if_pos h]
      simp only [List.map_cons, List.sum_cons, if_true, ih]
    · have hb : isActiveUnexpired userId now e = false := by
        unfold isActiveUnexpired
        simp only [decide_eq_false_iff_not]
        tauto
      rw [hb, if_neg h]
      simpa using ih

theorem getTotalBalance_sweep_invariant (s : Store) (userId : Nat)
    (t now : Int) (ht : t ≤ now) :
    GetTotalBalance (UpdateExpiredEntries s t).2 userId now =
      GetTotalBalance s userId now := by
  unfold GetTotalBalance UpdateExpiredEntries
  induction s with
  | nil => rfl
  | cons e rest ih =>
    simp only [List.map_cons, List.filter_cons]
    by_cases ho : isOverdueActive t e = true
    · have h1 : isActiveUnexpired userId now
          { e with status := BonusEntryStatus.expired } = false := by
        simp [isActiveUnexpired]
      have h2 : isActiveUnexpired userId now e = false := by
        unfold isOverdueActive at ho
        simp only [decide_eq_true_eq] at ho
        simp only [isActiveUnexpired, decide_eq_false_iff_not]
        rintro ⟨-, -, hlt⟩
        omega
      rw [if_pos ho, h1, h2]
      simpa using ih
    · rw [if_neg ho]
      by_cases ha : isActiveUnexpired userId now e = true
      · rw [ha]
        simp only [if_true, List.map_cons, List.sum_cons]
        rw [show (((List.map (fun x =>
          if isOverdueActive t x = true
          then { x with status := BonusEntryStatus.expired } else x) rest).filter
            (isActiveUnexpired userId now)).map (·.amount)).sum =
          (((rest.filter (isActiveUnexpired userId now)).map (·.amount)).sum) from ih]
      · rw [eq_false_of_ne_true ha]
        simpa using ih

/-- C7: `GetTotalBalance` always returns exactly the sum of `amount` over the
user's entries with `status = active` and `expires_at` strictly in the future
(the empty sum is 0), and running the expiration sweeper at any earlier or
equal instant does not change it. -/
theorem getTotalBalance_spec (s : Store) (userId : Nat) (now : Int) :
    GetTotalBalance s userId now = specUsableBalance s userId now ∧
    ∀ t, t ≤ now →
      GetTotalBalance (UpdateExpiredEntries s t).2 userId now =
        GetTotalBalance s userId now :=
  ⟨getTotalBalance_eq_spec s userId now,
   fun t ht => getTotalBalance_sweep_invariant s userId t now ht⟩

/-- C7 witness: on a two-entry table (one live, one overdue) the query equals
the spec-side sum and survives a sweep. -/
theorem getTotalBalance_spec_witness :
    GetTotalBalance
        [⟨1, 7, 100, 1000, 60, BonusEntryStatus.active, none⟩,
         ⟨2, 7, 40, -10000000, 1, BonusEntryStatus.active, none⟩] 7 2000 =
      specUsableBalance
        [⟨1, 7, 100, 1000, 60, BonusEntryStatus.active, none⟩,
         ⟨2, 7, 40, -10000000, 1, BonusEntryStatus.active, none⟩] 7 2000 ∧
    GetTotalBalance
        (UpdateExpiredEntries
          [⟨1, 7, 100, 1000, 60, BonusEntryStatus.active, none⟩,
           ⟨2, 7, 40, -10000000, 1, BonusEntryStatus.active, none⟩] 1500).2 7 2000 =
      GetTotalBalance
        [⟨1, 7, 100, 1000, 60, BonusEntryStatus.active, none⟩,
         ⟨2, 7, 40, -10000000, 1, BonusEntryStatus.active, none⟩] 7 2000 :=
  ⟨(getTotalBalance_spec
      [⟨1, 7, 100, 1000, 60, BonusEntryStatus.active, none⟩,
       ⟨2, 7, 40, -10000000, 1, BonusEntryStatus.active, none⟩] 7 2000).1,
   (getTotalBalance_spec
      [⟨1, 7, 100, 1000, 60, BonusEntryStatus.active, none⟩,
       ⟨2, 7, 40, -10000000, 1, BonusEntryStatus.active, none⟩] 7 2000).2 1500
      (by decide)⟩

theorem sweep_result_no_overdue (s : Store) (now : Int) :
    ∀ e ∈ (UpdateExpiredEntries s now).2, isOverdueActive now e = false := by
  intro e he
  unfold UpdateExpiredEntries at he
  obtain ⟨x, _, rfl⟩ := List.mem_map.mp he
  by_cases h : isOverdueActive now x = true
  · rw [if_pos h]
    simp [isOverdueActive]
  · rw [if_neg h]
    exact eq_false_of_ne_true h

/-- C10: the sweeper rewrites exactly the rows with `status = active` and
`expires_at ≤ now` to `status = expired`, changes no amounts, reports the count
of those rows, and is idempotent: an immediate second run affects zero rows and
changes nothing. -/
theorem updateExpiredEntries_spec (s : Store) (now : Int) :
    (UpdateExpiredEntries s now).2 =
      s.map (fun e =>
        if e.status = BonusEntryStatus.active ∧ e.expiresAt ≤ now
        then { e with status := BonusEntryStatus.expired } else e) ∧
    (UpdateExpiredEntries s now).2.map (·.amount) = s.map (·.amount) ∧
    (UpdateExpiredEntries s now).1 = (s.filter (isOverdueActive now)).length ∧
    UpdateExpiredEntries (UpdateExpiredEntries s now).2 now =
      (0, (UpdateExpiredEntries s now).2) := by
  refine ⟨?_, ?_, rfl, ?_⟩
  · unfold UpdateExpiredEntries
    have hfun : (fun e =>
        if isOverdueActive now e = true
        then { e with status := BonusEntryStatus.expired } else e) =
        (fun e : BonusEntry =>
          if e.status = BonusEntryStatus.active ∧ e.expiresAt ≤ now
          then { e with status := BonusEntryStatus.expired } else e) := by
      funext e
      by_cases h : e.status = BonusEntryStatus.active ∧ e.expiresAt ≤ now
      · rw [if_pos (by unfold isOverdueActive; exact decide_eq_true h), if_pos h]
      · rw [if_neg (by unfold isOverdueActive; simp only [decide_eq_true_eq]; exact h),
          if_neg h]
    rw [hfun]
  · unfold UpdateExpiredEntries
    induction s with
    | nil => rfl
    | cons e rest ih =>
      simp only [List.map_cons, List.cons.injEq]
      refine ⟨?_, ih⟩
      by_cases h : isOverdueActive now e = true
      · rw [if_pos h]
      · rw [if_neg h]
  · have hall := sweep_result_no_overdue s now
    unfold UpdateExpiredEntries
    rw [List.filter_eq_nil_iff.mpr (by intro a ha; rw [hall a ha]; simp)]
    simp only [List.length_nil, Prod.mk.injEq, true_and]
    calc (UpdateExpiredEntries s now).2.map (fun e =>
          if isOverdueActive now e = true
          then { e with status := BonusEntryStatus.expired } else e) =
        (UpdateExpiredEntries s now).2.map id := by
          apply List.map_congr_left
          intro a ha
          rw [hall a ha]
          simp
      _ = (UpdateExpiredEntries s now).2 := List.map_id _

/-- C10 witness: sweeping a table with one overdue and one live entry flips
only the overdue row, keeps amounts, reports one affected row, and a second
sweep affects zero rows. -/
theorem updateExpiredEntries_spec_witness :
    (UpdateExpiredEntries
        [⟨1, 7, 100, 1000, 60, BonusEntryStatus.active, none⟩,
         ⟨2, 7, 40, -10000000, 1, BonusEntryStatus.active, none⟩] 2000).2.map (·.amount) =
      [100, 40] ∧
    UpdateExpiredEntries
        (UpdateExpiredEntries
          [⟨1, 7, 100, 1000, 60, BonusEntryStatus.active, none⟩,
           ⟨2, 7, 40, -10000000, 1, BonusEntryStatus.active, none⟩] 2000).2 2000 =
      (0, (UpdateExpiredEntries
        [⟨1, 7, 100, 1000, 60, BonusEntryStatus.active, none⟩,
         ⟨2, 7, 40, -10000000, 1, BonusEntryStatus.active, none⟩] 2000).2) :=
  ⟨((updateExpiredEntries_spec
      [⟨1, 7, 100, 1000, 60, BonusEntryStatus.active, none⟩,
       ⟨2, 7, 40, -10000000, 1, BonusEntryStatus.active, none⟩] 2000).2.1).trans (by decide),
   (updateExpiredEntries_spec
      [⟨1, 7, 100, 1000, 60, BonusEntryStatus.active, none⟩,
       ⟨2, 7, 40, -10000000, 1, BonusEntryStatus.active, none⟩] 2000).2.2.2⟩

theorem withinHorizon_iff (userId : Nat) (now days : Int) (e : BonusEntry) :
    withinHorizon userId now days e = true ↔
      (e.userId = userId ∧ e.status = BonusEntryStatus.active ∧
        now < e.expiresAt ∧ e.expiresAt ≤ now + days * secondsPerDay) := by
  unfold withinHorizon isActiveUnexpired
  simp [and_assoc]

theorem getExpiringEntries_keys (s : Store) (userId : Nat) (days now : Int) :
    (GetExpiringEntries s userId days now).map Prod.fst =
      List.insertionSort (· ≤ ·)
        ((expiringRows s userId days now).map fun e => dateOf e.expiresAt).dedup := by
  unfold GetExpiringEntries
  rw [List.map_map]
  exact List.map_id _ ▸ rfl

/-- C9: `GetExpiringEntries(user, horizonDays)` returns one row per calendar
expiration date of the user's active, unexpired entries inside
`[now, now + horizonDays]`, each carrying the sum of the amounts expiring on
that date, in ascending date order; entries outside the horizon contribute
nothing (the row filter demands active status, `now < expires_at`, and
`expires_at ≤ now + horizonDays`, and every row value sums filtered entries
only). -/
theorem getExpiringEntries_spec (s : Store) (userId : Nat) (days now : Int) :
    (∀ e, withinHorizon userId now days e = true ↔
      (e.userId = userId ∧ e.status = BonusEntryStatus.active ∧
        now < e.expiresAt ∧ e.expiresAt ≤ now + days * secondsPerDay)) ∧
    ((GetExpiringEntries s userId days now).map Prod.fst).Sorted (· ≤ ·) ∧
    ((GetExpiringEntries s userId days now).map Prod.fst).Nodup ∧
    (∀ d v, (d, v) ∈ GetExpiringEntries s userId days now ↔
      ((∃ e ∈ s, withinHorizon userId now days e = true ∧ dateOf e.expiresAt = d) ∧
        v = (((expiringRows s userId days now).filter
          fun e => decide (dateOf e.expiresAt = d)).map (·.amount)).sum)) := by
  refine ⟨fun e => withinHorizon_iff userId now days e, ?_, ?_, ?_⟩
  · rw [getExpiringEntries_keys]
    exact List.sorted_insertionSort _ _
  · rw [getExpiringEntries_keys]
    exact (List.perm_insertionSort _ _).symm.nodup (List.nodup_dedup _)
  · intro d v
    unfold GetExpiringEntries
    constructor
    · intro h
      obtain ⟨a, ha, hfa⟩ := List.mem_map.mp h
      obtain ⟨rfl, rfl⟩ := Prod.mk.injEq .. ▸ hfa
      have ha' : a ∈ ((expiringRows s userId days now).map
          fun e => dateOf e.expiresAt).dedup :=
        (List.perm_insertionSort _ _).subset ha
      obtain ⟨e, he, hde⟩ := List.mem_map.mp (List.mem_dedup.mp ha')
      obtain ⟨hes, hew⟩ := List.mem_filter.mp he
      exact ⟨⟨e, hes, hew, hde⟩, rfl⟩
    · rintro ⟨⟨e, hes, hew, hde⟩, rfl⟩
      refine List.mem_map.mpr ⟨d, ?_, rfl⟩
      rw [(List.perm_insertionSort _ _).mem_iff, List.mem_dedup]
      exact List.mem_map.mpr ⟨e, List.mem_filter.mpr ⟨hes, hew⟩, hde⟩

/-- C9 witness: two entries expiring on the same day and one a day later are
grouped into two ascending rows of summed amounts. -/
theorem getExpiringEntries_spec_witness :
    ((GetExpiringEntries
        [⟨1, 7, 100, 0, 2, BonusEntryStatus.active, none⟩,
         ⟨2, 7, 40, 3600, 2, BonusEntryStatus.active, none⟩,
         ⟨3, 7, 5, 0, 3, BonusEntryStatus.active, none⟩] 7 7 1000).map
        Prod.fst).Sorted (· ≤ ·) ∧
    ((2, 140) ∈ GetExpiringEntries
        [⟨1, 7, 100, 0, 2, BonusEntryStatus.active, none⟩,
         ⟨2, 7, 40, 3600, 2, BonusEntryStatus.active, none⟩,
         ⟨3, 7, 5, 0, 3, BonusEntryStatus.active, none⟩] 7 7 1000) :=
  ⟨(getExpiringEntries_spec
      [⟨1, 7, 100, 0, 2, BonusEntryStatus.active, none⟩,
       ⟨2, 7, 40, 3600, 2, BonusEntryStatus.active, none⟩,
       ⟨3, 7, 5, 0, 3, BonusEntryStatus.active, none⟩] 7 7 1000).2.1,
   ((getExpiringEntries_spec
      [⟨1, 7, 100, 0, 2, BonusEntryStatus.active, none⟩,
       ⟨2, 7, 40, 3600, 2, BonusEntryStatus.active, none⟩,
       ⟨3, 7, 5, 0, 3, BonusEntryStatus.active, none⟩] 7 7 1000).2.2.2 2 140).mpr
      ⟨⟨⟨1, 7, 100, 0, 2, BonusEntryStatus.active, none⟩, by decide, by decide, by decide⟩,
       by decide⟩⟩

/-! ### Positivity invariant -/

theorem allPositive_append_one (s : Store) (e : BonusEntry)
    (hs : AllPositive s) (he : 0 < e.amount) : AllPositive (s ++ [e]) := by
  intro x hx
  rcases List.mem_append.mp hx with h | h
  · exact hs x h
  · rw [List.mem_singleton.mp h]
    exact he

theorem allPositive_updateSpentById (s : Store) (entryId : Nat) (now amt : Int)
    (hs : AllPositive s) (hamt : 0 < amt) :
    AllPositive (updateSpentById s entryId now amt) := by
  intro x hx
  unfold updateSpentById at hx
  obtain ⟨y, hy, rfl⟩ := List.mem_map.mp hx
  by_cases hid : y.id = entryId
  · rw [if_pos hid]
    exact hamt
  · rw [if_neg hid]
    exact hs y hy

theorem spendLoop_allPositive (now : Int) (newId : Nat) (entries : List BonusEntry) :
    ∀ (r : Int) (s : Store), AllPositive s → (∀ e ∈ entries, 0 < e.amount) →
      AllPositive (spendLoop now newId entries r s).2 := by
  induction entries with
  | nil => intro r s hs _; exact hs
  | cons e rest ih =>
    intro r s hs he
    by_cases hr : r ≤ 0
    · simpa [spendLoop, hr] using hs
    · by_cases hlt : r < e.amount
      · simp only [spendLoop, if_neg hr, if_pos hlt]
        refine ih (r - r) _ ?_ fun x hx => he x (List.mem_cons_of_mem e hx)
        refine allPositive_updateSpentById _ _ _ _ ?_ (by omega)
        refine allPositive_append_one _ _ hs ?_
        have := he e (List.mem_cons_self e rest)
        simp only [remainderEntry]
        omega
      · simp only [spendLoop, if_neg hr, if_neg hlt]
        refine ih (r - e.amount) _ ?_ fun x hx => he x (List.mem_cons_of_mem e hx)
        exact allPositive_updateSpentById _ _ _ _ hs (he e (List.mem_cons_self e rest))

theorem getActiveEntriesForUpdate_subset (s : Store) (userId : Nat) (now : Int) :
    ∀ e ∈ getActiveEntriesForUpdate s userId now, e ∈ s := fun _ he =>
  (List.mem_filter.mp ((getActiveEntries_perm s userId now).subset he)).1

theorem spendEntries_allPositive (s : Store) (userId : Nat)
    (amount now : Int) (newId : Nat) (hs : AllPositive s) :
    AllPositive (SpendEntries s userId amount now newId).2 := by
  unfold SpendEntries
  by_cases h : ((getActiveEntriesForUpdate s userId now).map (·.amount)).sum < amount
  · simpa [h] using hs
  · simp only [if_neg h]
    exact spendLoop_allPositive now newId _ amount s hs
      fun e he => hs e (getActiveEntriesForUpdate_subset s userId now e he)

theorem handleDeposit_allPositive (s : Store) (userId : Nat)
    (amount lifetimeDays now : Int) (newId : Nat)
    (hamt : 0 < amount) (hs : AllPositive s) :
    AllPositive (handleDeposit s userId amount lifetimeDays now newId) :=
  allPositive_append_one s _ hs hamt

theorem handleMultiply_allPositive (s : Store) (userId : Nat)
    (percent lifetimeDays now : Int) (newId : Nat) (hs : AllPositive s) :
    AllPositive (handleMultiply s userId percent lifetimeDays now newId).2 := by
  unfold handleMultiply
  by_cases h1 : percent ≤ 0
  · simpa [h1] using hs
  · by_cases h2 : 200 < percent
    · simpa [h1, h2] using hs
    · simp only [if_neg h1, if_neg h2]
      by_cases h3 : ((getActiveEntriesForUpdate s userId now).map (·.amount)).sum ≤ 0
      · simpa [h3] using hs
      · simp only [if_neg h3]
        by_cases h4 : (wrapInt64
            (((getActiveEntriesForUpdate s userId now).map (·.amount)).sum *
              percent)).tdiv 100 ≤ 0
        · simpa [h4] using hs
        · simp only [if_neg h4]
          exact handleDeposit_allPositive _ _ _ _ _ _ (by omega) hs

theorem updateExpiredEntries_allPositive (s : Store) (now : Int)
    (hs : AllPositive s) : AllPositive (UpdateExpiredEntries s now).2 := by
  intro x hx
  unfold UpdateExpiredEntries at hx
  obtain ⟨y, hy, rfl⟩ := List.mem_map.mp hx
  by_cases h : isOverdueActive now y = true
  · rw [if_pos h]
    exact hs y hy
  · rw [if_neg h]
    exact hs y hy

/-- C8: for every sequence of validated Deposit, Withdraw, Multiply, and Sweep
operations starting from a table of strictly positive amounts, every persisted
entry keeps a strictly positive amount: deposits and the split step never
create a zero or negative entry, and the overwrite of a spent entry's amount
to the consumed slice stays positive. -/
theorem ledger_amounts_always_positive (ops : List LedgerOp) :
    ∀ s : Store, (∀ op ∈ ops, ValidOp op) → AllPositive s →
      AllPositive (runOps s ops) := by
  induction ops with
  | nil => intro s _ hs; exact hs
  | cons op rest ih =>
    intro s hops hs
    unfold runOps
    rw [List.foldl_cons]
    refine ih (applyOp s op) (fun o ho => hops o (List.mem_cons_of_mem op ho)) ?_
    have hop := hops op (List.mem_cons_self op rest)
    cases op with
    | deposit userId amount lifetimeDays now newId =>
      exact handleDeposit_allPositive s userId amount lifetimeDays now newId hop hs
    | withdraw userId amount now newId =>
      exact spendEntries_allPositive s userId amount now newId hs
    | multiply userId percent lifetimeDays now newId =>
      exact handleMultiply_allPositive s userId percent lifetimeDays now newId hs
    | sweep now =>
      exact updateExpiredEntries_allPositive s now hs

/-- C8 witness: a deposit-deposit-withdraw(split)-multiply-sweep run from the
empty table leaves only positive amounts. -/
theorem ledger_amounts_always_positive_witness :
    AllPositive (runOps []
      [LedgerOp.deposit 7 100 30 1000 1,
       LedgerOp.deposit 7 50 30 2000 2,
       LedgerOp.withdraw 7 120 3000 3,
       LedgerOp.multiply 7 50 30 4000 4,
       LedgerOp.sweep 5000]) :=
  ledger_amounts_always_positive
    [LedgerOp.deposit 7 100 30 1000 1,
     LedgerOp.deposit 7 50 30 2000 2,
     LedgerOp.withdraw 7 120 3000 3,
     LedgerOp.multiply 7 50 30 4000 4,
     LedgerOp.sweep 5000] []
    (by
      intro op hop
      fin_cases hop <;> simp [ValidOp])
    (by intro e he; cases he)

end ItmoLedger
